import Mathlib

/-!
Verification development for the `iqserver-report-fetch-go` repository.

The Go source is shallowly embedded: the nested policy-violation report
structures (`internal/client/client.go`), the pure row flattener
`parseToViolationRows`, the CSV record generation of
`internal/report/csvreport.go`, and the orchestration logic of
`internal/services/iqreport.go` become executable Lean definitions.
The HTTP transport is abstracted as oracles returning `Except`-style
results, exactly the shape of the Go client methods.  Go's `float64`
threat level is modelled as a rational number and the Go conversion
`int(f)` as truncation toward zero.  The nondeterministic channel
arrival order of per-application results is modelled by quantifying
over permutations of the per-application result list.
-/

namespace IQFetch

/-! ## Data model (internal/client/client.go) -/

/-- `Application` record, client.go lines 28-32. -/
structure Application where
  id : String
  publicId : String
  organizationId : String
deriving DecidableEq

/-- `Organization` record, client.go lines 39-42. -/
structure Organization where
  id : String
  name : String
deriving DecidableEq

/-- `ReportInfo` record, client.go lines 49-52. -/
structure ReportInfo where
  stage : String
  reportHtmlUrl : String
deriving DecidableEq

/-- `Condition` record, client.go lines 59-61. -/
structure Condition where
  conditionSummary : String
deriving DecidableEq

/-- `Constraint` record, client.go lines 64-67. -/
structure Constraint where
  constraintName : String
  conditions : List Condition
deriving DecidableEq

/-- `Violation` record, client.go lines 70-74.  The Go field
`PolicyThreatLevel` is a `float64`; it is modelled as a rational. -/
structure Violation where
  policyName : String
  policyThreatLevel : ℚ
  constraints : List Constraint
deriving DecidableEq

/-- `Component` record, client.go lines 77-80. -/
structure Component where
  displayName : String
  violations : List Violation
deriving DecidableEq

/-- `PolicyViolationReport` record, client.go lines 83-85. -/
structure PolicyViolationReport where
  components : List Component
deriving DecidableEq

/-- `ViolationRow` record, client.go lines 92-102: the flattened
structure used for CSV output. -/
structure ViolationRow where
  application : String
  organization : String
  policy : String
  component : String
  threat : Int
  policyAction : String
  constraintName : String
  condition : String
  cve : String
deriving DecidableEq

/-- Go's conversion `int(f)` on a `float64` truncates toward zero.
On the rational model this is numerator `Int.div` denominator
(`Int.div` is Lean's truncating division). -/
def goTrunc (q : ℚ) : Int :=
  q.num.tdiv q.den

/-- The flattener `parseToViolationRows`, client.go lines 289-320.
The Go code appends to a `rows` slice inside three nested `for` loops
(components, then violations, then constraints), which is transcribed
as nested left folds over the same lists; `condSummaries` is likewise
accumulated by appends and joined with `strings.Join(_, " | ")`. -/
def parseToViolationRows (rawReport : PolicyViolationReport)
    (appPublicID : String) (orgName : String) : List ViolationRow :=
  rawReport.components.foldl (fun rows comp =>
    comp.violations.foldl (fun rows v =>
      let threat := goTrunc v.policyThreatLevel
      let policyAction := "Security-" ++ toString threat
      v.constraints.foldl (fun rows constr =>
        let condSummaries :=
          constr.conditions.foldl (fun acc cond => acc ++ [cond.conditionSummary]) []
        rows ++ [{ application := appPublicID
                   organization := orgName
                   policy := v.policyName
                   component := comp.displayName
                   threat := threat
                   policyAction := policyAction
                   constraintName := constr.constraintName
                   condition := String.intercalate " | " condSummaries
                   cve := "" }]) rows) rows) []

/-! ## A closed form for the flattener -/

/-- The row built for one (component, violation, constraint) triple,
spelling out every field exactly as client.go lines 305-315 fill it. -/
def mkViolationRow (appPublicID orgName : String)
    (c : Component) (v : Violation) (k : Constraint) : ViolationRow :=
  { application := appPublicID
    organization := orgName
    policy := v.policyName
    component := c.displayName
    threat := goTrunc v.policyThreatLevel
    policyAction := "Security-" ++ toString (goTrunc v.policyThreatLevel)
    constraintName := k.constraintName
    condition := String.intercalate " | " (k.conditions.map (fun cond => cond.conditionSummary))
    cve := "" }

/-- The (component, violation, constraint) triples of a report in
traversal order: components in source order, violations within a
component in source order, constraints within a violation in source
order. -/
def flattenTriples (rpt : PolicyViolationReport) :
    List (Component × Violation × Constraint) :=
  rpt.components.flatMap (fun c =>
    c.violations.flatMap (fun v =>
      v.constraints.map (fun k => (c, v, k))))

theorem foldl_snoc {α β : Type} (g : α → β) :
    ∀ (l : List α) (init : List β),
      l.foldl (fun acc x => acc ++ [g x]) init = init ++ l.map g := by
  intro l
  induction l with
  | nil => intro init; simp
  | cons x xs ih =>
      intro init
      simp [List.foldl_cons, ih, List.append_assoc]

theorem foldl_append_chunks {α β : Type} (g : α → List β) :
    ∀ (l : List α) (init : List β),
      l.foldl (fun acc x => acc ++ g x) init = init ++ l.flatMap g := by
  intro l
  induction l with
  | nil => intro init; simp
  | cons x xs ih =>
      intro init
      simp [List.foldl_cons, ih, List.append_assoc]

theorem constraints_foldl_eq (a o : String) (c : Component) (v : Violation)
    (init : List ViolationRow) :
    v.constraints.foldl (fun rows constr =>
        let condSummaries :=
          constr.conditions.foldl (fun acc cond => acc ++ [cond.conditionSummary]) []
        rows ++ [{ application := a
                   organization := o
                   policy := v.policyName
                   component := c.displayName
                   threat := goTrunc v.policyThreatLevel
                   policyAction := "Security-" ++ toString (goTrunc v.policyThreatLevel)
                   constraintName := constr.constraintName
                   condition := String.intercalate " | " condSummaries
                   cve := "" }]) init
      = init ++ v.constraints.map (fun k => mkViolationRow a o c v k) := by
  have hfun : (fun (rows : List ViolationRow) (constr : Constraint) =>
        let condSummaries :=
          constr.conditions.foldl (fun acc cond => acc ++ [cond.conditionSummary]) []
        rows ++ [{ application := a
                   organization := o
                   policy := v.policyName
                   component := c.displayName
                   threat := goTrunc v.policyThreatLevel
                   policyAction := "Security-" ++ toString (goTrunc v.policyThreatLevel)
                   constraintName := constr.constraintName
                   condition := String.intercalate " | " condSummaries
                   cve := "" : ViolationRow }])
      = (fun rows k => rows ++ [mkViolationRow a o c v k]) := by
    funext rows k
    have hconds := foldl_snoc (fun cond : Condition => cond.conditionSummary) k.conditions []
    simp only [List.nil_append] at hconds
    simp [mkViolationRow, hconds]
  rw [hfun]
  exact foldl_snoc (fun k => mkViolationRow a o c v k) v.constraints init

theorem violations_foldl_eq (a o : String) (c : Component)
    (init : List ViolationRow) :
    c.violations.foldl (fun rows v =>
        let threat := goTrunc v.policyThreatLevel
        let policyAction := "Security-" ++ toString threat
        v.constraints.foldl (fun rows constr =>
          let condSummaries :=
            constr.conditions.foldl (fun acc cond => acc ++ [cond.conditionSummary]) []
          rows ++ [{ application := a
                     organization := o
                     policy := v.policyName
                     component := c.displayName
                     threat := threat
                     policyAction := policyAction
                     constraintName := constr.constraintName
                     condition := String.intercalate " | " condSummaries
                     cve := "" }]) rows) init
      = init ++ c.violations.flatMap (fun v => v.constraints.map (fun k => mkViolationRow a o c v k)) := by
  have hfun : (fun (rows : List ViolationRow) (v : Violation) =>
        let threat := goTrunc v.policyThreatLevel
        let policyAction := "Security-" ++ toString threat
        v.constraints.foldl (fun rows constr =>
          let condSummaries :=
            constr.conditions.foldl (fun acc cond => acc ++ [cond.conditionSummary]) []
          rows ++ [{ application := a
                     organization := o
                     policy := v.policyName
                     component := c.displayName
                     threat := threat
                     policyAction := policyAction
                     constraintName := constr.constraintName
                     condition := String.intercalate " | " condSummaries
                     cve := "" : ViolationRow }]) rows)
      = (fun rows v => rows ++ v.constraints.map (fun k => mkViolationRow a o c v k)) := by
    funext rows v
    exact constraints_foldl_eq a o c v rows
  rw [hfun]
  exact foldl_append_chunks
    (fun v => v.constraints.map (fun k => mkViolationRow a o c v k)) c.violations init

/-- Closed form of the flattener as a nested bind over the report. -/
theorem parseToViolationRows_eq_bind (rpt : PolicyViolationReport) (a o : String) :
    parseToViolationRows rpt a o
      = rpt.components.flatMap (fun c =>
          c.violations.flatMap (fun v =>
            v.constraints.map (fun k => mkViolationRow a o c v k))) := by
  have hfun : (fun (rows : List ViolationRow) (comp : Component) =>
        comp.violations.foldl (fun rows v =>
          let threat := goTrunc v.policyThreatLevel
          let policyAction := "Security-" ++ toString threat
          v.constraints.foldl (fun rows constr =>
            let condSummaries :=
              constr.conditions.foldl (fun acc cond => acc ++ [cond.conditionSummary]) []
            rows ++ [{ application := a
                       organization := o
                       policy := v.policyName
                       component := comp.displayName
                       threat := threat
                       policyAction := policyAction
                       constraintName := constr.constraintName
                       condition := String.intercalate " | " condSummaries
                       cve := "" : ViolationRow }]) rows) rows)
      = (fun rows comp => rows ++ comp.violations.flatMap (fun v =>
            v.constraints.map (fun k => mkViolationRow a o comp v k))) := by
    funext rows comp
    exact violations_foldl_eq a o comp rows
  show rpt.components.foldl _ [] = _
  rw [hfun]
  have h := foldl_append_chunks (fun comp : Component =>
    comp.violations.flatMap (fun v =>
      v.constraints.map (fun k => mkViolationRow a o comp v k))) rpt.components []
  simpa using h

/-- Closed form of the flattener over the traversal-ordered triples. -/
theorem parseToViolationRows_eq (rpt : PolicyViolationReport) (a o : String) :
    parseToViolationRows rpt a o
      = (flattenTriples rpt).map (fun t => mkViolationRow a o t.1 t.2.1 t.2.2) := by
  rw [parseToViolationRows_eq_bind, flattenTriples]
  simp [List.map_flatMap, List.map_map, Function.comp_def]

/-! ## Durable writer (internal/report/csvreport.go) -/

/-- `Row` record, csvreport.go lines 55-65 (the output unit the
service hands to the writer). -/
structure Row where
  application : String
  organization : String
  policy : String
  component : String
  threat : Int
  policyAction : String
  constraintName : String
  condition : String
  cve : String
deriving DecidableEq

/-- `csvHeaders`, csvreport.go lines 68-81: the header row the writer
emits, in the required order. -/
def csvHeaders : List String :=
  ["No.", "Application", "Organization", "Policy", "Component",
   "Threat", "Policy/Action", "Constraint Name", "Condition", "CVE"]

/-- Header columns exactly as the specification lists them
(spec section 4.3: "row number, Application, Organization, Policy,
Format, Component, Threat, Policy/Action, Constraint Name, Condition,
CVE").  Kept separate from `csvHeaders` so the two can be compared. -/
def specHeaderColumns : List String :=
  ["No.", "Application", "Organization", "Policy", "Format", "Component",
   "Threat", "Policy/Action", "Constraint Name", "Condition", "CVE"]

/-- One data record of `WriteCSV`, csvreport.go lines 114-126: the
row number `i+1` (recomputed at write time from the position `i` in
the final collection) followed by the row's fields. -/
def csvRecord (i : Nat) (r : Row) : List String :=
  [toString (i + 1), r.application, r.organization, r.policy, r.component,
   toString r.threat, r.policyAction, r.constraintName, r.condition, r.cve]

/-- The full record sequence `WriteCSV` writes (csvreport.go lines
105-133): the header, then one record per row in order.  The
file-system side (temp file, fsync, atomic rename, chmod) is not
modelled; this is the content that reaches the destination file when
the writer succeeds. -/
def writeCSVRecords (rows : List Row) : List (List String) :=
  csvHeaders :: (rows.enum.map (fun p => csvRecord p.1 p.2))

/-! ## Orchestrator (internal/services/iqreport.go) -/

/-- `Config`, internal/config/config.go lines 10-21. -/
structure Config where
  iqServerURL : String
  iqUsername : String
  iqPassword : String
  organizationID : String
  outputDir : String

/-- The conversion from `client.ViolationRow` to `report.Row`,
iqreport.go lines 146-159: a field-by-field copy. -/
def toReportRow (r : ViolationRow) : Row :=
  { application := r.application
    organization := r.organization
    policy := r.policy
    component := r.component
    threat := r.threat
    policyAction := r.policyAction
    constraintName := r.constraintName
    condition := r.condition
    cve := r.cve }

/-- `AppReportResult`, iqreport.go lines 26-29: the rows and the
error a single application's goroutine sends on the results channel. -/
structure AppReportResult where
  rows : List Row := []
  err : Option String := none
deriving DecidableEq

/-- Whitespace characters Go's `strings.TrimSpace` strips (the ASCII
set of `unicode.IsSpace`; rarer Unicode space code points are not
modelled). -/
def isSpaceChar (c : Char) : Bool :=
  c = ' ' || c = '\t' || c = '\n' || c = '\r' || c = '\x0b' || c = '\x0c'

/-- Go `strings.TrimSpace`: remove leading and trailing whitespace. -/
def goTrimSpace (s : String) : String :=
  ⟨((s.data.dropWhile isSpaceChar).reverse.dropWhile isSpaceChar).reverse⟩

/-- Core of Go `strings.Cut` on character lists: split around the
leftmost occurrence of `sep`, or `none` when `sep` does not occur. -/
def cutChars (sep : List Char) : List Char → Option (List Char × List Char)
  | [] => if sep.isPrefixOf ([] : List Char) then some ([], []) else none
  | c :: cs =>
    if sep.isPrefixOf (c :: cs) then some ([], (c :: cs).drop sep.length)
    else (cutChars sep cs).map (fun p => (c :: p.1, p.2))

/-- Go `strings.Cut(s, sep)`: returns (before, after, found);
`(s, "", false)` when `sep` does not occur in `s`. -/
def stringCut (s sep : String) : String × String × Bool :=
  match cutChars sep.data s.data with
  | none => (s, "", false)
  | some (before, after) => (⟨before⟩, ⟨after⟩, true)

/-- Go `fmt.Sprintf` `%q` of a string: the string in double quotes
(escaping of special characters inside the string is not modelled). -/
def goQuote (s : String) : String := "\"" ++ s ++ "\""

/-- The parse error of iqreport.go line 125:
`fmt.Errorf("cannot parse report id from %q", reportInfo.ReportHTMLURL)`. -/
def parseReportIdErr (u : String) : String :=
  "cannot parse report id from " ++ goQuote u

/-- Insert-or-replace on an association list: the Go map assignment
`m[k] = v` (last write wins, keys unique). -/
def mapUpdate (m : List (String × String)) (k v : String) :
    List (String × String) :=
  if m.any (fun p => p.1 = k) then
    m.map (fun p => if p.1 = k then (k, v) else p)
  else m ++ [(k, v)]

/-- Go map lookup `m[k]` returning `none` when absent. -/
def mapLookup (m : List (String × String)) (k : String) : Option String :=
  (m.find? (fun p => p.1 = k)).map (fun p => p.2)

/-- The organization ID-to-name map built in iqreport.go lines 69-72. -/
def buildOrgIDToName (orgs : List Organization) : List (String × String) :=
  orgs.foldl (fun m org => mapUpdate m org.id org.name) []

/-- The Remote Report Source, client.go: each HTTP operation is an
oracle that either fails (transport or non-2xx error, as a message)
or yields the decoded response body. -/
structure Client where
  getApplicationsAPI : Option String → Except String (List Application)
  getOrganizationsAPI : Except String (List Organization)
  latestReportsAPI : String → Except String (List ReportInfo)
  policyViolationsAPI : String → String → Except String PolicyViolationReport

/-- `GetLatestReportInfo`, client.go lines 205-233: fetch the report
list for the application and return the first entry, or `none` when
the list is empty (absent rather than an error). -/
def Client.getLatestReportInfo (cl : Client) (appID : String) :
    Except String (Option ReportInfo) :=
  match cl.latestReportsAPI appID with
  | .error e => .error e
  | .ok reports => .ok reports.head?

/-- `GetPolicyViolations`, client.go lines 236-262: fetch the report
and flatten it with `parseToViolationRows`. -/
def Client.getPolicyViolations (cl : Client)
    (publicID reportID orgName : String) : Except String (List ViolationRow) :=
  match cl.policyViolationsAPI publicID reportID with
  | .error e => .error e
  | .ok rpt => .ok (parseToViolationRows rpt publicID orgName)

/-- The body of one per-application goroutine, iqreport.go lines
93-163, run after the semaphore slot is acquired.  `ctxErr` is
`ctx.Err()` observed at task start (iqreport.go line 101). -/
def processApp (ctxErr : Option String) (cl : Client)
    (orgIDToName : List (String × String)) (app : Application) :
    AppReportResult :=
  match ctxErr with
  | some e => { err := some e }
  | none =>
    match cl.getLatestReportInfo app.id with
    | .error e =>
        { err := some ("latest report for " ++ app.publicId ++ ": " ++ e) }
    | .ok none => {}
    | .ok (some reportInfo) =>
      if goTrimSpace reportInfo.reportHtmlUrl = "" then {}
      else
        match stringCut reportInfo.reportHtmlUrl "/report/" with
        | (_, reportID, found) =>
          if found = false ∨ reportID = "" then
            { err := some (parseReportIdErr reportInfo.reportHtmlUrl) }
          else
            let orgName :=
              (mapLookup orgIDToName app.organizationId).getD app.organizationId
            match cl.getPolicyViolations app.publicId reportID orgName with
            | .error e =>
                { err := some ("policy violations for " ++ app.publicId ++ ": " ++ e) }
            | .ok clientRows => { rows := clientRows.map toReportRow }

/-- The sequential setup of `GenerateLatestPolicyReport`, iqreport.go
lines 51-73: fetch applications (error and empty-list checks), then
organizations, then build the lookup. -/
def setupPhase (cl : Client) (orgID : Option String) :
    Except String (List Application × List (String × String)) :=
  match cl.getApplicationsAPI orgID with
  | .error e => .error ("get applications: " ++ e)
  | .ok apps =>
    if apps.isEmpty then .error "no applications found"
    else
      match cl.getOrganizationsAPI with
      | .error e => .error ("get organizations: " ++ e)
      | .ok orgs => .ok (apps, buildOrgIDToName orgs)

/-- The per-application results produced by the fan-out, one per
application (iqreport.go lines 87-164); the channel delivers them in
some permutation of this list. -/
def appResults (ctxErr : Option String) (cl : Client)
    (orgIDToName : List (String × String)) (apps : List Application) :
    List AppReportResult :=
  apps.map (processApp ctxErr cl orgIDToName)

/-- The merge loop of iqreport.go lines 172-181 over the results in
channel-arrival order: the first result carrying an error aborts with
that error; otherwise the rows are appended in arrival order. -/
def aggregate : List AppReportResult → Except String (List Row)
  | [] => .ok []
  | r :: rs =>
    match r.err with
    | some e => .error e
    | none =>
      match aggregate rs with
      | .error e => .error e
      | .ok rows => .ok (r.rows ++ rows)

/-- The first error in channel-arrival order, if any. -/
def firstErr : List AppReportResult → Option String
  | [] => none
  | r :: rs =>
    match r.err with
    | some e => some e
    | none => firstErr rs

/-- `filepath.Join(outputDir, filename)` (iqreport.go line 187);
path cleaning is irrelevant to the claims and not modelled. -/
def joinPath (dir name : String) : String := dir ++ "/" ++ name

/-- Outcome of `GenerateLatestPolicyReport`: `failure e` means the
function returned `("", e)` before ever calling `report.WriteCSV`
(every error return in iqreport.go precedes line 190), so the
destination file is untouched; `success path file` means
`report.WriteCSV` was invoked exactly once with these records for
that path. -/
inductive RunOutcome where
  | failure (err : String)
  | success (path : String) (file : List (List String))
deriving DecidableEq

/-- `GenerateLatestPolicyReport`, iqreport.go lines 38-197, as a
function of the channel-arrival order `received` of the
per-application results (concurrency makes that order
nondeterministic; theorems quantify over permutations of
`appResults`). -/
def runResult (cl : Client) (cfg : Config) (orgID : Option String)
    (filename : String) (received : List AppReportResult) : RunOutcome :=
  match setupPhase cl orgID with
  | .error e => .failure e
  | .ok _ =>
    match aggregate received with
    | .error e => .failure e
    | .ok rows => .success (joinPath cfg.outputDir filename) (writeCSVRecords rows)

/-! ## Flattener lemmas -/

theorem mem_parseToViolationRows (rpt : PolicyViolationReport) (a o : String)
    (row : ViolationRow) :
    row ∈ parseToViolationRows rpt a o
      ↔ ∃ c ∈ rpt.components, ∃ v ∈ c.violations, ∃ k ∈ v.constraints,
          mkViolationRow a o c v k = row := by
  rw [parseToViolationRows_eq_bind]
  simp [List.mem_flatMap, List.mem_map]

theorem parse_row_organization (rpt : PolicyViolationReport) (a o : String)
    (row : ViolationRow) (hrow : row ∈ parseToViolationRows rpt a o) :
    row.organization = o := by
  rcases (mem_parseToViolationRows rpt a o row).1 hrow with
    ⟨c, _, v, _, k, _, hrw⟩
  rw [← hrw]
  rfl

/-! ## Claim C5 -/

/-- C5: the flattener produces exactly one flat row per
(component, violation, constraint) triple, traversed in source order;
a component or violation with zero constraints contributes zero rows,
and condition summaries are pipe-joined into the single Condition
field of that row (visible in `mkViolationRow`), never expanded into
additional rows.  The length identity makes the one-per-triple count
explicit. -/
theorem parse_one_row_per_triple (rpt : PolicyViolationReport) (a o : String) :
    parseToViolationRows rpt a o
      = (flattenTriples rpt).map (fun t => mkViolationRow a o t.1 t.2.1 t.2.2)
    ∧ (parseToViolationRows rpt a o).length
      = (rpt.components.map (fun c =>
          (c.violations.map (fun v => v.constraints.length)).sum)).sum := by
  refine ⟨parseToViolationRows_eq rpt a o, ?_⟩
  rw [parseToViolationRows_eq_bind]
  simp [List.length_flatMap, Function.comp_def]

/-! ## Claim C9 -/

/-- C9: every flat row's Threat field is the violation's threat level
truncated to an integer, and its Policy/Action label is the constant
prefix "Security-" followed by that same truncated integer. -/
theorem row_policyAction_truncated_threat (rpt : PolicyViolationReport)
    (a o : String) (row : ViolationRow)
    (hrow : row ∈ parseToViolationRows rpt a o) :
    ∃ c, c ∈ rpt.components ∧ ∃ v, v ∈ c.violations ∧
      row.threat = goTrunc v.policyThreatLevel ∧
      row.policyAction = "Security-" ++ toString (goTrunc v.policyThreatLevel) := by
  rcases (mem_parseToViolationRows rpt a o row).1 hrow with
    ⟨c, hc, v, hv, k, _, hrw⟩
  exact ⟨c, hc, v, hv, by rw [← hrw]; exact ⟨rfl, rfl⟩⟩

/-- Concrete report for the C9 witness: one component, one violation
with a fractional-representation threat level of 7.0, one constraint
with two condition summaries. -/
def wRpt9 : PolicyViolationReport :=
  ⟨[⟨"libX", [⟨"Security-Medium", 7,
      [⟨"Medium risk CVSS score", [⟨"a"⟩, ⟨"b"⟩]⟩]⟩]⟩]⟩

/-- The single flat row the flattener produces for `wRpt9`. -/
def wRow9 : ViolationRow :=
  { application := "pub"
    organization := "org"
    policy := "Security-Medium"
    component := "libX"
    threat := 7
    policyAction := "Security-7"
    constraintName := "Medium risk CVSS score"
    condition := "a | b"
    cve := "" }

/-- C9 witness: threat level 7.0 yields Threat 7 and label
"Security-7". -/
theorem row_policyAction_truncated_threat_witness :
    ∃ c, c ∈ wRpt9.components ∧ ∃ v, v ∈ c.violations ∧
      wRow9.threat = goTrunc v.policyThreatLevel ∧
      wRow9.policyAction = "Security-" ++ toString (goTrunc v.policyThreatLevel) :=
  row_policyAction_truncated_threat wRpt9 "pub" "org" wRow9 (by decide)

/-! ## Claim C10 -/

/-- C10: a constraint with an empty conditions list still yields
exactly its one row, whose Condition field is the empty string (the
pipe-join of zero summaries); it is neither dropped nor an error. -/
theorem empty_conditions_one_row (rpt : PolicyViolationReport) (a o : String)
    (c : Component) (v : Violation) (k : Constraint)
    (hc : c ∈ rpt.components) (hv : v ∈ c.violations) (hk : k ∈ v.constraints)
    (hkc : k.conditions = []) :
    mkViolationRow a o c v k ∈ parseToViolationRows rpt a o ∧
    (mkViolationRow a o c v k).condition = "" := by
  refine ⟨(mem_parseToViolationRows rpt a o _).2 ⟨c, hc, v, hv, k, hk, rfl⟩, ?_⟩
  simp only [mkViolationRow, hkc, List.map_nil]
  rfl

/-- Concrete report for the C10 witness: its only constraint has an
empty conditions list. -/
def wRpt10 : PolicyViolationReport :=
  ⟨[⟨"libY", [⟨"Security-High", 9, [⟨"bare constraint", []⟩]⟩]⟩]⟩

/-- C10 witness: the conditionless constraint of `wRpt10` still
produces its row, with an empty Condition field. -/
theorem empty_conditions_one_row_witness :
    mkViolationRow "pub" "org" ⟨"libY", [⟨"Security-High", 9, [⟨"bare constraint", []⟩]⟩]⟩
        ⟨"Security-High", 9, [⟨"bare constraint", []⟩]⟩ ⟨"bare constraint", []⟩
      ∈ parseToViolationRows wRpt10 "pub" "org" ∧
    (mkViolationRow "pub" "org" ⟨"libY", [⟨"Security-High", 9, [⟨"bare constraint", []⟩]⟩]⟩
        ⟨"Security-High", 9, [⟨"bare constraint", []⟩]⟩ ⟨"bare constraint", []⟩).condition = "" :=
  empty_conditions_one_row wRpt10 "pub" "org" _ _ _
    (by decide) (by decide) (by decide) rfl

/-! ## Aggregation lemmas -/

theorem aggregate_ok_of_no_err :
    ∀ (rs : List AppReportResult), (∀ r ∈ rs, r.err = none) →
      aggregate rs = .ok (rs.flatMap (fun r => r.rows)) := by
  intro rs
  induction rs with
  | nil => intro _; rfl
  | cons r rs ih =>
      intro h
      have hr : r.err = none := h r (List.mem_cons_self r rs)
      have hrs := ih (fun x hx => h x (List.mem_cons_of_mem r hx))
      simp [aggregate, hr, hrs]

theorem aggregate_error_of_firstErr (e : String) :
    ∀ rs, firstErr rs = some e → aggregate rs = .error e := by
  intro rs
  induction rs with
  | nil => intro h; exact absurd h (by simp [firstErr])
  | cons r rs ih =>
      intro h
      cases hr : r.err with
      | some e2 =>
          simp only [firstErr, hr] at h
          simp only [aggregate, hr]
          exact congrArg Except.error (Option.some.inj h)
      | none =>
          simp only [firstErr, hr] at h
          simp only [aggregate, hr, ih h]

theorem firstErr_eq_none (rs : List AppReportResult) :
    firstErr rs = none ↔ ∀ r ∈ rs, r.err = none := by
  induction rs with
  | nil => simp [firstErr]
  | cons r rs ih =>
      cases hr : r.err with
      | some e => simp [firstErr, hr]
      | none => simp [firstErr, hr, ih]

theorem firstErr_isSome_of_err (rs : List AppReportResult)
    (h : ∃ r ∈ rs, r.err ≠ none) : ∃ e, firstErr rs = some e := by
  cases hfe : firstErr rs with
  | some e => exact ⟨e, rfl⟩
  | none =>
      rcases h with ⟨r, hmem, hne⟩
      exact absurd ((firstErr_eq_none rs).1 hfe r hmem) hne

theorem firstErr_mem (e : String) :
    ∀ rs, firstErr rs = some e → ∃ r ∈ rs, r.err = some e := by
  intro rs
  induction rs with
  | nil => intro h; exact absurd h (by simp [firstErr])
  | cons r rs ih =>
      intro h
      cases hr : r.err with
      | some e2 =>
          simp only [firstErr, hr] at h
          exact ⟨r, List.mem_cons_self r rs, hr.trans h⟩
      | none =>
          simp only [firstErr, hr] at h
          rcases ih h with ⟨x, hx, hxe⟩
          exact ⟨x, List.mem_cons_of_mem r hx, hxe⟩

/-! ## Claim C2 -/

/-- C2: when any application's result carries an error, the run
returns the first error received and never reaches the writer (the
outcome is `failure`, i.e. the function returns before
`report.WriteCSV` is called, so nothing appears at the destination
path), for every channel-arrival order. -/
theorem run_fail_fast (cl : Client) (cfg : Config) (orgID : Option String)
    (filename : String) (ctxErr : Option String) (apps : List Application)
    (lookup : List (String × String)) (received : List AppReportResult)
    (hsetup : setupPhase cl orgID = .ok (apps, lookup))
    (hperm : received.Perm (appResults ctxErr cl lookup apps))
    (herr : ∃ r ∈ appResults ctxErr cl lookup apps, r.err ≠ none) :
    ∃ e, firstErr received = some e ∧ (∃ r ∈ received, r.err = some e) ∧
      runResult cl cfg orgID filename received = .failure e ∧
      ∀ p f, runResult cl cfg orgID filename received ≠ .success p f := by
  have herr2 : ∃ r ∈ received, r.err ≠ none := by
    rcases herr with ⟨r, hmem, hne⟩
    exact ⟨r, (hperm.mem_iff).2 hmem, hne⟩
  rcases firstErr_isSome_of_err received herr2 with ⟨e, he⟩
  have hagg := aggregate_error_of_firstErr e received he
  refine ⟨e, he, firstErr_mem e received he, ?_, ?_⟩
  · simp [runResult, hsetup, hagg]
  · intro p f
    simp [runResult, hsetup, hagg]

/-- Application used by the orchestrator witnesses. -/
def wApp : Application := ⟨"id1", "pub1", "org1"⟩

/-- Config used by the orchestrator witnesses. -/
def wCfg : Config := ⟨"http://iq", "u", "p", "", "reports_output"⟩

/-- Client whose latest-report fetch fails, for the C2 witness. -/
def wClientErr : Client :=
  { getApplicationsAPI := fun _ => .ok [wApp]
    getOrganizationsAPI := .ok [⟨"org1", "Org One"⟩]
    latestReportsAPI := fun _ => .error "HTTP 500: oops"
    policyViolationsAPI := fun _ _ => .ok ⟨[]⟩ }

/-- C2 witness: a single application whose latest-report fetch fails
makes the run fail without reaching the writer. -/
theorem run_fail_fast_witness :
    ∃ e, firstErr (appResults none wClientErr [("org1", "Org One")] [wApp]) = some e ∧
      (∃ r ∈ appResults none wClientErr [("org1", "Org One")] [wApp], r.err = some e) ∧
      runResult wClientErr wCfg none "out.csv"
        (appResults none wClientErr [("org1", "Org One")] [wApp]) = .failure e ∧
      ∀ p f, runResult wClientErr wCfg none "out.csv"
        (appResults none wClientErr [("org1", "Org One")] [wApp]) ≠ .success p f :=
  run_fail_fast wClientErr wCfg none "out.csv" none [wApp] [("org1", "Org One")] _
    rfl (List.Perm.refl _)
    ⟨processApp none wClientErr [("org1", "Org One")] wApp, by decide, by decide⟩

/-! ## Claim C3 -/

theorem enum_map_fst_fun {α β : Type} (l : List α) (f : Nat → β) :
    l.enum.map (fun p => f p.1) = (List.range l.length).map f := by
  have h : (fun p : Nat × α => f p.1) = f ∘ Prod.fst := rfl
  rw [h, ← List.map_map, List.enum_map_fst]

/-- C3: an error-free run writes exactly one header line plus one
record per flattened row, and the row-number column of the data
records is the contiguous sequence 1..total, for every
channel-arrival order of the per-application results. -/
theorem run_success_rows (cl : Client) (cfg : Config) (orgID : Option String)
    (filename : String) (ctxErr : Option String) (apps : List Application)
    (lookup : List (String × String)) (received : List AppReportResult)
    (hsetup : setupPhase cl orgID = .ok (apps, lookup))
    (hperm : received.Perm (appResults ctxErr cl lookup apps))
    (hok : ∀ r ∈ appResults ctxErr cl lookup apps, r.err = none) :
    ∃ rows : List Row,
      runResult cl cfg orgID filename received
        = .success (joinPath cfg.outputDir filename) (writeCSVRecords rows) ∧
      (writeCSVRecords rows).length
        = 1 + ((appResults ctxErr cl lookup apps).map (fun r => r.rows.length)).sum ∧
      ((writeCSVRecords rows).drop 1).map (fun rec => rec.head?)
        = (List.range (((appResults ctxErr cl lookup apps).map
            (fun r => r.rows.length)).sum)).map (fun i => some (toString (i + 1))) := by
  have hok2 : ∀ r ∈ received, r.err = none := fun r hr => hok r (hperm.mem_iff.1 hr)
  have hagg := aggregate_ok_of_no_err received hok2
  have hsum : (received.flatMap (fun r => r.rows)).length
      = ((appResults ctxErr cl lookup apps).map (fun r => r.rows.length)).sum := by
    rw [List.length_flatMap]
    have hp := (hperm.map (fun r => r.rows.length)).sum_eq
    simpa [Function.comp_def] using hp
  refine ⟨received.flatMap (fun r => r.rows), ?_, ?_, ?_⟩
  · simp [runResult, hsetup, hagg]
  · simp [writeCSVRecords, hsum, Nat.add_comm]
  · have h1 : ((writeCSVRecords (received.flatMap (fun r => r.rows))).drop 1)
        = (received.flatMap (fun r => r.rows)).enum.map (fun p => csvRecord p.1 p.2) := rfl
    rw [h1, List.map_map]
    have h2 : ((fun rec : List String => rec.head?) ∘ fun p : Nat × Row => csvRecord p.1 p.2)
        = (fun p : Nat × Row => some (toString (p.1 + 1))) := rfl
    rw [h2, enum_map_fst_fun (received.flatMap (fun r => r.rows))
      (fun i => some (toString (i + 1))), hsum]

/-- Report used by the success-path witnesses. -/
def wRptOk : PolicyViolationReport :=
  ⟨[⟨"libZ", [⟨"Security-Low", 3, [⟨"low risk", [⟨"c1"⟩]⟩]⟩]⟩]⟩

/-- Client whose whole pipeline succeeds, for the C3 witness. -/
def wClientOk : Client :=
  { getApplicationsAPI := fun _ => .ok [wApp]
    getOrganizationsAPI := .ok [⟨"org1", "Org One"⟩]
    latestReportsAPI := fun _ => .ok [⟨"build", "https://stub/report/rpt-1"⟩]
    policyViolationsAPI := fun _ _ => .ok wRptOk }

/-- C3 witness: the error-free single-application run writes the
header plus its one data record, numbered from 1. -/
theorem run_success_rows_witness :
    ∃ rows : List Row,
      runResult wClientOk wCfg none "out.csv"
          (appResults none wClientOk [("org1", "Org One")] [wApp])
        = .success (joinPath wCfg.outputDir "out.csv") (writeCSVRecords rows) ∧
      (writeCSVRecords rows).length
        = 1 + ((appResults none wClientOk [("org1", "Org One")] [wApp]).map
            (fun r => r.rows.length)).sum ∧
      ((writeCSVRecords rows).drop 1).map (fun rec => rec.head?)
        = (List.range (((appResults none wClientOk [("org1", "Org One")] [wApp]).map
            (fun r => r.rows.length)).sum)).map (fun i => some (toString (i + 1))) :=
  run_success_rows wClientOk wCfg none "out.csv" none [wApp] [("org1", "Org One")] _
    rfl (List.Perm.refl _) (by decide)

/-! ## Claim C6 -/

theorem firstErr_of_uniform (m : String) :
    ∀ rs, (∀ r ∈ rs, r.err = none ∨ r.err = some m) →
      (∃ r ∈ rs, r.err = some m) → firstErr rs = some m := by
  intro rs
  induction rs with
  | nil =>
      intro _ h
      rcases h with ⟨r, hr, _⟩
      exact absurd hr (List.not_mem_nil r)
  | cons r rs ih =>
      intro hall hex
      cases hu : r.err with
      | some e2 =>
          simp only [firstErr, hu]
          rcases hall r (List.mem_cons_self r rs) with h | h
          · rw [hu] at h; cases h
          · rw [hu] at h; exact h
      | none =>
          simp only [firstErr, hu]
          apply ih (fun x hx => hall x (List.mem_cons_of_mem _ hx))
          rcases hex with ⟨x, hx, hxe⟩
          rcases List.mem_cons.1 hx with rfl | hx2
          · rw [hu] at hxe; cases hxe
          · exact ⟨x, hx2, hxe⟩

theorem processApp_parse_error (cl : Client) (lookup : List (String × String))
    (app : Application) (ri : ReportInfo)
    (hri : cl.getLatestReportInfo app.id = .ok (some ri))
    (hnb : ¬ goTrimSpace ri.reportHtmlUrl = "")
    (hbad : (stringCut ri.reportHtmlUrl "/report/").2.2 = false
            ∨ (stringCut ri.reportHtmlUrl "/report/").2.1 = "") :
    processApp none cl lookup app
      = { rows := [], err := some (parseReportIdErr ri.reportHtmlUrl) } := by
  unfold processApp
  simp only [hri]
  rw [if_neg hnb]
  rcases hcut : stringCut ri.reportHtmlUrl "/report/" with ⟨before, rest⟩
  rcases hrest : rest with ⟨reportID, found⟩
  rw [hcut] at hbad
  rw [hrest] at hbad
  simp only [hcut, hrest]
  rw [if_pos]
  rcases hbad with h | h
  · exact Or.inl h
  · exact Or.inr h

/-- C6: an application whose latest-report locator lacks the
"/report/" marker, or yields an empty report identifier, makes the
run fail with the parse error that names the offending locator
(provided no other application errs first, so that this parse error
is the one received). -/
theorem bad_locator_fails_run (cl : Client) (cfg : Config)
    (orgID : Option String) (filename : String) (apps : List Application)
    (lookup : List (String × String)) (received : List AppReportResult)
    (app : Application) (ri : ReportInfo)
    (hsetup : setupPhase cl orgID = .ok (apps, lookup))
    (happ : app ∈ apps)
    (hri : cl.getLatestReportInfo app.id = .ok (some ri))
    (hnb : ¬ goTrimSpace ri.reportHtmlUrl = "")
    (hbad : (stringCut ri.reportHtmlUrl "/report/").2.2 = false
            ∨ (stringCut ri.reportHtmlUrl "/report/").2.1 = "")
    (hperm : received.Perm (appResults none cl lookup apps))
    (hothers : ∀ b ∈ apps, b ≠ app → (processApp none cl lookup b).err = none) :
    runResult cl cfg orgID filename received
      = .failure (parseReportIdErr ri.reportHtmlUrl) ∧
    ∃ p q, parseReportIdErr ri.reportHtmlUrl = p ++ ri.reportHtmlUrl ++ q := by
  have hpa := processApp_parse_error cl lookup app ri hri hnb hbad
  have hall : ∀ r ∈ received, r.err = none
      ∨ r.err = some (parseReportIdErr ri.reportHtmlUrl) := by
    intro r hr
    have hr2 : r ∈ appResults none cl lookup apps := hperm.mem_iff.1 hr
    rcases List.mem_map.1 hr2 with ⟨b, hb, rfl⟩
    by_cases hba : b = app
    · subst hba
      rw [hpa]
      exact Or.inr rfl
    · exact Or.inl (hothers b hb hba)
  have hex : ∃ r ∈ received, r.err = some (parseReportIdErr ri.reportHtmlUrl) := by
    refine ⟨processApp none cl lookup app, ?_, by rw [hpa]⟩
    exact hperm.mem_iff.2 (List.mem_map.2 ⟨app, happ, rfl⟩)
  have hfe := firstErr_of_uniform (parseReportIdErr ri.reportHtmlUrl) received hall hex
  have hagg := aggregate_error_of_firstErr _ received hfe
  constructor
  · simp [runResult, hsetup, hagg]
  · refine ⟨"cannot parse report id from " ++ "\"", "\"", ?_⟩
    simp only [parseReportIdErr, goQuote, String.append_assoc]

/-- Client whose latest-report locator has no "/report/" marker, for
the C6 witness. -/
def wClientBadUrl : Client :=
  { getApplicationsAPI := fun _ => .ok [wApp]
    getOrganizationsAPI := .ok [⟨"org1", "Org One"⟩]
    latestReportsAPI := fun _ => .ok [⟨"build", "https://stub/nomarker/rpt-1"⟩]
    policyViolationsAPI := fun _ _ => .ok ⟨[]⟩ }

/-- C6 witness: the marker-less locator "https://stub/nomarker/rpt-1"
fails the run with a parse error quoting that locator. -/
theorem bad_locator_fails_run_witness :
    runResult wClientBadUrl wCfg none "out.csv"
        (appResults none wClientBadUrl [("org1", "Org One")] [wApp])
      = .failure (parseReportIdErr "https://stub/nomarker/rpt-1") ∧
    ∃ p q, parseReportIdErr "https://stub/nomarker/rpt-1"
      = p ++ "https://stub/nomarker/rpt-1" ++ q :=
  bad_locator_fails_run wClientBadUrl wCfg none "out.csv" [wApp]
    [("org1", "Org One")] _ wApp ⟨"build", "https://stub/nomarker/rpt-1"⟩
    rfl (by decide) rfl (by decide) (Or.inl (by decide)) (List.Perm.refl _)
    (by decide)

/-! ## Claim C7 -/

/-- C7: an application whose latest report is absent, or whose detail
locator is blank after trimming, contributes the empty outcome (zero
rows, no error), and that outcome is invisible to the merge step. -/
theorem absent_report_contributes_nothing (cl : Client)
    (lookup : List (String × String)) (app : Application)
    (h : cl.getLatestReportInfo app.id = .ok none
         ∨ ∃ ri, cl.getLatestReportInfo app.id = .ok (some ri)
             ∧ goTrimSpace ri.reportHtmlUrl = "") :
    processApp none cl lookup app = { rows := [], err := none } ∧
    ∀ rest, aggregate ({ rows := [], err := none } :: rest) = aggregate rest := by
  constructor
  · rcases h with h | ⟨ri, hri, hblank⟩
    · unfold processApp
      simp only [h]
    · unfold processApp
      simp only [hri]
      rw [if_pos hblank]
  · intro rest
    simp only [aggregate]
    cases aggregate rest <;> simp

/-- Client with no report at all for the application, for the C7
witness. -/
def wClientNoReport : Client :=
  { getApplicationsAPI := fun _ => .ok [wApp]
    getOrganizationsAPI := .ok [⟨"org1", "Org One"⟩]
    latestReportsAPI := fun _ => .ok []
    policyViolationsAPI := fun _ _ => .ok ⟨[]⟩ }

/-- C7 witness: the report-less application yields the empty outcome
and leaves any merge unchanged. -/
theorem absent_report_contributes_nothing_witness :
    processApp none wClientNoReport [("org1", "Org One")] wApp
      = { rows := [], err := none } ∧
    ∀ rest, aggregate ({ rows := [], err := none } :: rest) = aggregate rest :=
  absent_report_contributes_nothing wClientNoReport [("org1", "Org One")] wApp
    (Or.inl rfl)

/-! ## Claim C8 -/

/-- C8: when the application's organization identifier is absent from
the lookup, the unit still succeeds, and every row it produces has
the raw organization identifier in its Organization field. -/
theorem missing_org_falls_back (cl : Client) (lookup : List (String × String))
    (app : Application) (ri : ReportInfo) (before reportID : String)
    (rpt : PolicyViolationReport)
    (hri : cl.getLatestReportInfo app.id = .ok (some ri))
    (hnb : ¬ goTrimSpace ri.reportHtmlUrl = "")
    (hcut : stringCut ri.reportHtmlUrl "/report/" = (before, reportID, true))
    (hid : ¬ reportID = "")
    (hmiss : mapLookup lookup app.organizationId = none)
    (hpv : cl.policyViolationsAPI app.publicId reportID = .ok rpt) :
    processApp none cl lookup app
      = { rows := (parseToViolationRows rpt app.publicId app.organizationId).map toReportRow,
          err := none } ∧
    ∀ row ∈ (processApp none cl lookup app).rows,
      row.organization = app.organizationId := by
  have hmain : processApp none cl lookup app
      = { rows := (parseToViolationRows rpt app.publicId app.organizationId).map toReportRow,
          err := none } := by
    unfold processApp
    simp only [hri]
    rw [if_neg hnb]
    simp only [hcut]
    rw [if_neg (by simp [hid])]
    rw [hmiss]
    simp only [Option.getD_none]
    unfold Client.getPolicyViolations
    simp only [hpv]
  refine ⟨hmain, ?_⟩
  intro row hrow
  rw [hmain] at hrow
  rcases List.mem_map.1 hrow with ⟨r0, hr0, rfl⟩
  have h0 := parse_row_organization rpt app.publicId app.organizationId r0 hr0
  simpa [toReportRow] using h0

/-- Client whose organization list misses the application's
organization, for the C8 witness. -/
def wClientNoOrg : Client :=
  { getApplicationsAPI := fun _ => .ok [wApp]
    getOrganizationsAPI := .ok []
    latestReportsAPI := fun _ => .ok [⟨"build", "https://stub/report/rpt-1"⟩]
    policyViolationsAPI := fun _ _ => .ok wRptOk }

/-- C8 witness: with an empty lookup the unit succeeds and its row
carries the raw identifier "org1" as the Organization field. -/
theorem missing_org_falls_back_witness :
    processApp none wClientNoOrg [] wApp
      = { rows := (parseToViolationRows wRptOk wApp.publicId wApp.organizationId).map toReportRow,
          err := none } ∧
    ∀ row ∈ (processApp none wClientNoOrg [] wApp).rows,
      row.organization = wApp.organizationId :=
  missing_org_falls_back wClientNoOrg [] wApp ⟨"build", "https://stub/report/rpt-1"⟩
    "https://stub" "rpt-1" wRptOk rfl (by decide) (by decide) (by decide) rfl rfl

/-! ## Claim C4: the admission gate (iqreport.go lines 80-98)

The fan-out launches one goroutine per application; each goroutine
first sends on the buffered channel `sem := make(chan struct{}, 10)`
(blocking while the buffer is full) and receives from it on exit.
The interleavings of these acquire/release events form a transition
system; the work of iqreport.go lines 100-162 happens strictly
between the two events, i.e. while the unit is `inFlight`. -/

/-- Phase of one per-application unit with respect to the admission
gate: `idle` before the send on `sem` (line 94) completes, `inFlight`
between that send and the deferred receive (line 96), `done` after. -/
inductive UnitPhase where
  | idle
  | inFlight
  | done
deriving DecidableEq

/-- Gate state: `sem` is the number of tokens currently in the
buffered channel, `units` the phase of each application's unit. -/
structure GateState where
  sem : Nat
  units : List UnitPhase
deriving DecidableEq

/-- Capacity of the semaphore channel, iqreport.go line 80. -/
def maxConcurrent : Nat := 10

/-- Initial state for `n` applications: empty channel, all units idle. -/
def initGate (n : Nat) : GateState := ⟨0, List.replicate n .idle⟩

/-- Interleaving steps: a send on the buffered channel (`acquire`)
fires only while it holds fewer than `maxConcurrent` tokens — a
goroutine attempting it otherwise stays blocked in `idle` — and the
deferred receive (`release`) removes a token when a unit finishes. -/
inductive GateStep : GateState → GateState → Prop where
  | acquire (s : GateState) (i : Nat) (h : s.units[i]? = some .idle)
      (hsem : s.sem < maxConcurrent) :
      GateStep s ⟨s.sem + 1, s.units.set i .inFlight⟩
  | release (s : GateState) (i : Nat) (h : s.units[i]? = some .inFlight) :
      GateStep s ⟨s.sem - 1, s.units.set i .done⟩

/-- States reachable from the initial state by any interleaving. -/
def GateReachable (n : Nat) (s : GateState) : Prop :=
  Relation.ReflTransGen GateStep (initGate n) s

theorem count_set_acquire :
    ∀ (l : List UnitPhase) (i : Nat), l[i]? = some .idle →
      (l.set i .inFlight).count .inFlight = l.count .inFlight + 1 := by
  intro l
  induction l with
  | nil => intro i h; simp at h
  | cons a l ih =>
      intro i h
      cases i with
      | zero =>
          have ha : a = .idle := by simpa using h
          subst ha
          simp [List.count_cons]
      | succ n =>
          have h2 : l[n]? = some .idle := by simpa using h
          have h3 := ih n h2
          simp only [List.set_cons_succ, List.count_cons, h3]
          omega

theorem count_set_release :
    ∀ (l : List UnitPhase) (i : Nat), l[i]? = some .inFlight →
      (l.set i .done).count .inFlight + 1 = l.count .inFlight := by
  intro l
  induction l with
  | nil => intro i h; simp at h
  | cons a l ih =>
      intro i h
      cases i with
      | zero =>
          have ha : a = .inFlight := by simpa using h
          subst ha
          simp [List.count_cons]
      | succ n =>
          have h2 : l[n]? = some .inFlight := by simpa using h
          have h3 := ih n h2
          simp only [List.set_cons_succ, List.count_cons]
          omega

theorem gate_invariant (n : Nat) (s : GateState) (h : GateReachable n s) :
    s.units.count .inFlight = s.sem ∧ s.sem ≤ maxConcurrent := by
  induction h with
  | refl =>
      constructor
      · simp [initGate, List.count_replicate]
      · simp [initGate]
  | tail hsteps hstep ih =>
      cases hstep with
      | acquire i hidle hsem =>
          dsimp only
          refine ⟨?_, hsem⟩
          rw [count_set_acquire _ i hidle]
          have ih1 := ih.1
          omega
      | release i hflt =>
          dsimp only
          have hc := count_set_release _ i hflt
          rcases ih with ⟨ih1, ih2⟩
          exact ⟨by omega, by omega⟩

/-- C4: in every state reachable by any interleaving of the
per-application units through the admission gate, at most
`maxConcurrent` (= 10) units are simultaneously past the gate
(in flight), regardless of the number `n` of applications. -/
theorem gate_concurrency_bound (n : Nat) (s : GateState)
    (h : GateReachable n s) :
    s.units.count .inFlight ≤ maxConcurrent := by
  rcases gate_invariant n s h with ⟨h1, h2⟩
  omega

/-- C4 witness: the state after one unit of three acquires a slot is
reachable, and the theorem bounds its in-flight count by 10. -/
theorem gate_concurrency_bound_witness :
    GateReachable 3 ⟨1, [.inFlight, .idle, .idle]⟩ ∧
    (GateState.mk 1 [.inFlight, .idle, .idle]).units.count .inFlight
      ≤ maxConcurrent := by
  have hstep : GateStep (initGate 3) ⟨1, [.inFlight, .idle, .idle]⟩ :=
    GateStep.acquire (initGate 3) 0 rfl (by decide)
  exact ⟨Relation.ReflTransGen.single hstep,
    gate_concurrency_bound 3 _ (Relation.ReflTransGen.single hstep)⟩

/-! ## Claim C1 -/

/-- C1: the header row the writer emits.  The implementation's
`csvHeaders` (internal/report/csvreport.go) has ten columns, with
"Component" at index 4 and no "Format" column at all, whereas the
claimed header — matching the repository's own tests, which assert
header index 4 is "Format" (csvreport_test.go) and the header starts
with "No.,Application,Organization,Policy,Format" (iqreport_test.go)
— has eleven columns with "Format" between Policy and Component. -/
theorem csvHeaders_lacks_format :
    csvHeaders
      = ["No.", "Application", "Organization", "Policy", "Component",
         "Threat", "Policy/Action", "Constraint Name", "Condition", "CVE"]
    ∧ csvHeaders.length = 10
    ∧ specHeaderColumns.length = 11
    ∧ csvHeaders ≠ specHeaderColumns
    ∧ ¬ "Format" ∈ csvHeaders
    ∧ specHeaderColumns[4]? = some "Format"
    ∧ csvHeaders[4]? = some "Component"
    ∧ writeCSVRecords [] = [csvHeaders] := by
  refine ⟨rfl, rfl, rfl, ?_, ?_, rfl, rfl, rfl⟩ <;> decide

end IQFetch
